import Mathlib

set_option linter.unusedVariables false

/-!
Formal model of the error-handling and caching layer of the
practical-strategy-poc repository, shallowly embedding
`agent/error_handler_prod.py` (circuit breaker, retry with backoff) and
`agent/cache_manager_prod.py` (query cache, embedding cache).

Wall-clock time (`time.time()` / `datetime.now()`) is made explicit: every
operation that reads the clock takes the current time as a parameter — `ℚ`
for the circuit breaker, `ℤ` (whole seconds) for the cache, whose TTL
parameter is an `int` and which only compares and subtracts times. The
value produced by `random.random()` is likewise an explicit parameter,
constrained to `[0, 1)` where a claim needs it.
-/

/-- Circuit breaker states, mirroring `ServiceStatus` in
`error_handler_prod.py` (`CLOSED`, `OPEN`, `HALF_OPEN`). `OPEN` is rendered
`opened` because `open` is reserved in Lean. -/
inductive ServiceStatus where
  | closed
  | opened
  | halfOpen
deriving DecidableEq

/-- The mutable fields of `CircuitBreaker.__init__`, minus the wrapped
exception class (failures of the wrapped callable are modelled as
`Except.error`). -/
structure CircuitBreaker where
  failure_threshold : Nat
  recovery_timeout : ℚ
  failure_count : Nat
  last_failure_time : Option ℚ
  status : ServiceStatus
deriving DecidableEq

/-- A freshly constructed breaker: `failure_count = 0`,
`last_failure_time = None`, `status = CLOSED`. -/
def CircuitBreaker.init (threshold : Nat) (timeout : ℚ) : CircuitBreaker :=
  ⟨threshold, timeout, 0, none, .closed⟩

/-- `CircuitBreaker._on_success`: reset the count and close the breaker. -/
def CircuitBreaker.onSuccess (cb : CircuitBreaker) : CircuitBreaker :=
  { cb with failure_count := 0, status := .closed }

/-- `CircuitBreaker._on_failure`: bump the count, stamp the failure time and
open the breaker once the count reaches the threshold. -/
def CircuitBreaker.onFailure (now : ℚ) (cb : CircuitBreaker) : CircuitBreaker :=
  let c := cb.failure_count + 1
  { cb with
      failure_count := c
      last_failure_time := some now
      status := if cb.failure_threshold ≤ c then .opened else cb.status }

/-- `CircuitBreaker._should_attempt_reset`: true when a failure time is
recorded and strictly more than `recovery_timeout` seconds have elapsed. -/
def CircuitBreaker.shouldAttemptReset (now : ℚ) (cb : CircuitBreaker) : Bool :=
  match cb.last_failure_time with
  | none => false
  | some t => decide (cb.recovery_timeout < now - t)

/-- `CircuitBreaker._time_until_reset`: seconds until the breaker may reset,
truncated to an integer and clamped at zero exactly as
`max(0, int(self.recovery_timeout - elapsed))` does. -/
def CircuitBreaker.timeUntilReset (now : ℚ) (cb : CircuitBreaker) : ℤ :=
  match cb.last_failure_time with
  | none => 0
  | some t => max 0 ⌊cb.recovery_timeout - (now - t)⌋

/-- Outcome of the admission check at the top of `CircuitBreaker.call` /
`async_call`, i.e. everything that runs before the wrapped function is
invoked. `proceed` carries the breaker state visible while the call is in
flight (possibly moved from OPEN to HALF_OPEN); `rejected` is the
`TransientError` raised with the remaining wait time in its details. -/
inductive CheckResult where
  | proceed (cb : CircuitBreaker)
  | rejected (retryAfter : ℤ)
deriving DecidableEq

/-- Admission phase of `CircuitBreaker.call` / `async_call`: the part of the
method executed before (and deciding whether) the wrapped function runs. -/
def CircuitBreaker.check (now : ℚ) (cb : CircuitBreaker) : CheckResult :=
  if cb.status = .opened then
    if cb.shouldAttemptReset now then .proceed { cb with status := .halfOpen }
    else .rejected (cb.timeUntilReset now)
  else .proceed cb

/-- What a single call through the breaker produced: the wrapped function's
value, its re-raised exception, or the rejection raised by the breaker. -/
inductive CallResult (α : Type) where
  | ok (a : α)
  | errored
  | rejected (retryAfter : ℤ)
deriving DecidableEq

/-- One full execution of `CircuitBreaker.call` (equivalently `async_call`
when no other task interleaves): whether the wrapped function was invoked,
what the caller sees, and the breaker state afterwards. -/
structure CallStep (α : Type) where
  invoked : Bool
  result : CallResult α
  state : CircuitBreaker
deriving DecidableEq

/-- `CircuitBreaker.call`: admission check, then the wrapped function
(modelled by its `outcome`), then `_on_success` / `_on_failure`. -/
def CircuitBreaker.call (outcome : Except Unit α) (now : ℚ) (cb : CircuitBreaker) :
    CallStep α :=
  match cb.check now with
  | .rejected r => ⟨false, .rejected r, cb⟩
  | .proceed cb1 =>
    match outcome with
    | .ok a => ⟨true, .ok a, cb1.onSuccess⟩
    | .error _ => ⟨true, .errored, cb1.onFailure now⟩

/-- Breaker state after a sequence of calls whose wrapped function fails
every time, the call at position `i` happening at time `ts[i]`. -/
def CircuitBreaker.applyFails (ts : List ℚ) (cb : CircuitBreaker) : CircuitBreaker :=
  ts.foldl (fun s t => (CircuitBreaker.call (α := Unit) (Except.error ()) t s).state) cb

/-- Result of the loop body of `retry_with_backoff.sync_wrapper` (the
`async_wrapper` is line-for-line identical up to `await`): the success
value, the exception re-raised on the final attempt, or the `raise
last_exception` after the loop, which re-raises `None` when the loop never
ran (`max_retries = 0`). -/
inductive RetryResult (ε α : Type) where
  | success (a : α)
  | failure (e : ε)
  | exhausted
deriving DecidableEq

/-- Attempts `attempt, attempt+1, ...` of the retry loop with `remaining`
loop iterations left; `f i` is the outcome of the i-th invocation of the
wrapped function. Returns the result together with how many times the
wrapped function was invoked. -/
def retryGo (f : Nat → Except ε α) (attempt : Nat) : Nat → RetryResult ε α × Nat
  | 0 => (.exhausted, 0)
  | r + 1 =>
    match f attempt with
    | .ok a => (.success a, 1)
    | .error e =>
      if r = 0 then (.failure e, 1)
      else
        let p := retryGo f (attempt + 1) r
        (p.1, p.2 + 1)

/-- `retry_with_backoff(max_retries = n)` applied to an operation whose i-th
invocation yields `f i`: the loop `for attempt in range(max_retries)`. -/
def retryRun (f : Nat → Except ε α) (maxRetries : Nat) : RetryResult ε α × Nat :=
  retryGo f 0 maxRetries

/-- Whether an invocation outcome is a (retriable) exception. -/
def isErr : Except ε α → Bool
  | .error _ => true
  | .ok _ => false

/-- The delay computed for retry attempt `attempt` in
`retry_with_backoff`: `min(initial_delay * exponential_base ** attempt,
max_delay)`, multiplied by `0.5 + random.random()` when `jitter` is set
(`r` is the value `random.random()` returned), then raised to
`retry_after` when the exception carried a rate-limit hint. The float
literal `0.1`-style arithmetic is carried out in `ℚ`. -/
def backoffDelay (initialDelay maxDelay exponentialBase : ℚ) (jitter : Bool)
    (rateLimitHint : Option ℚ) (attempt : Nat) (r : ℚ) : ℚ :=
  let d := min (initialDelay * exponentialBase ^ attempt) maxDelay
  let d := if jitter then d * (1/2 + r) else d
  match rateLimitHint with
  | some ra => max d ra
  | none => d

/-- Lookup in a Python dict rendered as an insertion-ordered association
list with unique keys. -/
def alookup {K V : Type} [DecidableEq K] : List (K × V) → K → Option V
  | [], _ => none
  | (k1, v) :: rest, k => if k1 = k then some v else alookup rest k

/-- Python dict assignment: update the binding in place when the key is
present (keeping its position, as CPython dicts do), else append. -/
def aupdate {K V : Type} [DecidableEq K] : List (K × V) → K → V → List (K × V)
  | [], k, v => [(k, v)]
  | (k1, v1) :: rest, k, v =>
    if k1 = k then (k, v) :: rest else (k1, v1) :: aupdate rest k v

/-- Python dict deletion: drop the binding of the key, if any. -/
def aerase {K V : Type} [DecidableEq K] : List (K × V) → K → List (K × V)
  | [], _ => []
  | (k1, v1) :: rest, k => if k1 = k then rest else (k1, v1) :: aerase rest k

/-- The key whose value is minimal, taking the earliest binding on ties:
Python `min` over `dict.items()` keyed by the value returns the first item
attaining the minimum in insertion order. -/
def argminValue {K : Type} : List (K × ℤ) → Option K
  | [] => none
  | (k, v) :: rest =>
    some (rest.foldl (fun best p => if p.2 < best.2 then p else best) (k, v)).1

/-- Python `str.lower()` on one character, for the ASCII range (the cache
keys and patterns the claims exercise are ASCII; Python's Unicode lowering
coincides with this there). Defined by structural means so that concrete
cache runs evaluate inside the kernel. -/
def lowerChar (c : Char) : Char :=
  if 'A' ≤ c ∧ c ≤ 'Z' then Char.ofNat (c.toNat + 32) else c

/-- Python `str.lower()`. -/
def pyLower (s : String) : String := String.mk (s.data.map lowerChar)

/-- The whitespace characters `str.strip()` and `str.split()` remove. -/
def isPyWhitespace (c : Char) : Bool :=
  c = ' ' ∨ c = '\t' ∨ c = '\n' ∨ c = '\r' ∨ c = '\x0b' ∨ c = '\x0c'

/-- Python `str.strip()`: drop leading and trailing whitespace. -/
def pyStrip (s : String) : String :=
  String.mk
    (((s.data.dropWhile isPyWhitespace).reverse.dropWhile isPyWhitespace).reverse)

/-- Helper for Python `str.split()`: accumulate the current word (reversed)
and cut at whitespace, dropping empty pieces. -/
def pyWordsAux : List Char → List Char → List (List Char)
  | [], acc => if acc = [] then [] else [acc.reverse]
  | c :: rest, acc =>
    if isPyWhitespace c then
      if acc = [] then pyWordsAux rest [] else acc.reverse :: pyWordsAux rest []
    else pyWordsAux rest (c :: acc)

/-- Python `str.split()` with no separator: the whitespace-delimited words. -/
def pySplit (s : String) : List String :=
  (pyWordsAux s.data []).map String.mk

/-- `query_text.lower().strip()` from `_generate_cache_key`. -/
def normalizeQuery (s : String) : String := pyStrip (pyLower s)

/-- The data hashed by `QueryCache._generate_cache_key`. The SHA-256 of the
sorted-keys JSON of `key_data`, and the MD5 of the comma-joined first ten
embedding components, are cryptographic hashes; the claims about keys are
stated up to hash collision, under which both are injective, so the key is
represented by the data that is hashed: the normalised query, the parameter
mapping (in its canonical sorted-key form), and the truncated embedding
when one was supplied. Embedding components are carried as `ℚ`. -/
structure CacheKeyData where
  query : String
  params : List (String × String)
  embedding_hash : Option (List ℚ)
deriving DecidableEq

/-- `QueryCache._generate_cache_key`. Returns `none` for an empty query
text (`if not query_text`); an empty embedding list is falsy in Python, so
`if embedding:` skips the hashing block and no `embedding_hash` field is
included; otherwise only `embedding[:10]` enters the digest. -/
def generateCacheKey (queryText : String) (embedding : Option (List ℚ))
    (params : List (String × String)) : Option CacheKeyData :=
  if queryText = "" then none
  else
    match embedding with
    | none => some ⟨normalizeQuery queryText, params, none⟩
    | some l =>
      if l = [] then some ⟨normalizeQuery queryText, params, none⟩
      else some ⟨normalizeQuery queryText, params, some (l.take 10)⟩

/-- The information about an embedding that survives key generation: the
first ten components when a non-empty embedding was supplied, nothing
otherwise. -/
def truncEmbedding : Option (List ℚ) → Option (List ℚ)
  | none => none
  | some l => if l = [] then none else some (l.take 10)

/-- `CacheStatistics`, minus the asyncio lock and the wall-clock
`start_time`. The milliseconds-saved accumulator is carried in `ℚ`. -/
structure CacheStatistics where
  hits : Nat
  misses : Nat
  total_requests : Nat
  cache_saves_ms : ℚ
  errors : Nat
deriving DecidableEq

/-- Fresh statistics. -/
def CacheStatistics.statsInit : CacheStatistics := ⟨0, 0, 0, 0, 0⟩

/-- `CacheStatistics.record_hit`. -/
def CacheStatistics.recordHit (timeSavedMs : ℚ) (s : CacheStatistics) : CacheStatistics :=
  { s with
      hits := s.hits + 1
      total_requests := s.total_requests + 1
      cache_saves_ms := s.cache_saves_ms + timeSavedMs }

/-- `CacheStatistics.record_miss`. -/
def CacheStatistics.recordMiss (s : CacheStatistics) : CacheStatistics :=
  { s with misses := s.misses + 1, total_requests := s.total_requests + 1 }

/-- `CacheStatistics.record_error`. -/
def CacheStatistics.recordError (s : CacheStatistics) : CacheStatistics :=
  { s with errors := s.errors + 1, total_requests := s.total_requests + 1 }

/-- One value of `QueryCache._cache`: the stored result, the time it was
stored, and its estimated size in bytes. Cached result values are
abstracted to `Nat` identifiers (their content never influences the cache
logic); `size_bytes` is the value `_estimate_size` returned for them. -/
structure CacheEntry where
  value : Nat
  timestamp : ℤ
  size_bytes : Nat
deriving DecidableEq

/-- The state of a `QueryCache`, minus the asyncio lock and the error-mode
flag (logging differs by mode, state evolution does not: the `RAISE` mode
re-raises after `_handle_error` has already updated the counters). -/
structure QueryCache where
  max_size : Nat
  ttl_seconds : ℤ
  max_memory_mb : Nat
  cache : List (CacheKeyData × CacheEntry)
  access_times : List (CacheKeyData × ℤ)
  query_patterns : List (String × Nat)
  stats : CacheStatistics
  total_memory_bytes : ℤ
  consecutive_errors : Nat
  max_consecutive_errors : Nat
  circuit_open : Bool
deriving DecidableEq

/-- `QueryCache.__init__` after its argument validation has passed
(`max_size`, `ttl_seconds` and `max_memory_mb` must be positive, else it
raises `ValueError`); `_max_consecutive_errors` is the constant 10. -/
def QueryCache.init (maxSize : Nat) (ttlSeconds : ℤ) (maxMemoryMb : Nat) : QueryCache :=
  { max_size := maxSize
    ttl_seconds := ttlSeconds
    max_memory_mb := maxMemoryMb
    cache := []
    access_times := []
    query_patterns := []
    stats := CacheStatistics.statsInit
    total_memory_bytes := 0
    consecutive_errors := 0
    max_consecutive_errors := 10
    circuit_open := false }

/-- `QueryCache.__init__` with its validation: `none` models the
`ValueError` raised on a non-positive argument. -/
def QueryCache.initChecked (maxSize : Nat) (ttlSeconds : ℤ) (maxMemoryMb : Nat) :
    Option QueryCache :=
  if maxSize = 0 ∨ ttlSeconds ≤ 0 ∨ maxMemoryMb = 0 then none
  else some (QueryCache.init maxSize ttlSeconds maxMemoryMb)

/-- State effect of `QueryCache._handle_error`: bump the consecutive-error
counter and open the internal breaker once it reaches
`_max_consecutive_errors`. -/
def QueryCache.handleError (st : QueryCache) : QueryCache :=
  let c := st.consecutive_errors + 1
  { st with
      consecutive_errors := c
      circuit_open := if st.max_consecutive_errors ≤ c then true else st.circuit_open }

/-- `QueryCache._reset_error_count`: after a successful operation, zero the
counter and close the breaker, but only when errors had been recorded. -/
def QueryCache.resetErrorCount (st : QueryCache) : QueryCache :=
  if 0 < st.consecutive_errors then
    { st with consecutive_errors := 0, circuit_open := false }
  else st

/-- `' '.join(query_text.lower().split()[:3])` from
`_track_query_pattern`: Python `str.split()` splits on whitespace runs and
drops empty pieces. -/
def queryPattern (queryText : String) : String :=
  " ".intercalate ((pySplit (pyLower queryText)).take 3)

/-- `self._query_patterns[pattern] += 1` on a `defaultdict(int)`. -/
def bumpPattern (pats : List (String × Nat)) (p : String) : List (String × Nat) :=
  aupdate pats p ((alookup pats p).getD 0 + 1)

/-- `self.max_memory_mb * 1024 * 1024` as used in `_evict_if_needed`. -/
def QueryCache.memoryLimitBytes (st : QueryCache) : ℤ :=
  (st.max_memory_mb : ℤ) * 1024 * 1024

/-- `QueryCache._evict_item`: remove the entry and its access time and give
its size back to the memory account; `false` when the key was absent. -/
def QueryCache.evictItem (k : CacheKeyData) (st : QueryCache) : Bool × QueryCache :=
  match alookup st.cache k with
  | some entry =>
    ( true,
      { st with
          total_memory_bytes := st.total_memory_bytes - entry.size_bytes
          cache := aerase st.cache k
          access_times := aerase st.access_times k } )
  | none => (false, st)

/-- The first `while` loop of `QueryCache._evict_if_needed` (memory limit),
with its `evicted_count` runaway guard; the loop performs at most
`max_size + 1` iterations before that guard fires, so a fuel of
`max_size + 2` makes the recursion total without changing behaviour. -/
def QueryCache.evictMemLoop (newSize : Nat) : Nat → Nat → QueryCache → Bool × QueryCache
  | 0, _, st => (false, st)
  | fuel + 1, count, st =>
    if st.memoryLimitBytes < st.total_memory_bytes + newSize then
      if st.cache = [] then (false, st)
      else
        match argminValue st.access_times with
        | none => (false, st)
        | some lru =>
          let r := st.evictItem lru
          if r.1 then
            if st.max_size < count + 1 then (false, r.2)
            else QueryCache.evictMemLoop newSize fuel (count + 1) r.2
          else (false, r.2)
    else (true, st)

/-- The second `while` loop of `QueryCache._evict_if_needed` (size limit);
every iteration either evicts one entry or exits, so a fuel of one more
than the number of entries makes the recursion total without changing
behaviour. -/
def QueryCache.evictSizeLoop : Nat → QueryCache → Bool × QueryCache
  | 0, st => (false, st)
  | fuel + 1, st =>
    if st.max_size ≤ st.cache.length then
      if st.cache = [] then (true, st)
      else
        match argminValue st.access_times with
        | none => (false, st)
        | some lru =>
          let r := st.evictItem lru
          if r.1 then QueryCache.evictSizeLoop fuel r.2
          else (false, r.2)
    else (true, st)

/-- `QueryCache._evict_if_needed`: memory loop, then size loop, then
success. -/
def QueryCache.evictIfNeeded (newSize : Nat) (st : QueryCache) : Bool × QueryCache :=
  let r1 := QueryCache.evictMemLoop newSize (st.max_size + 2) 0 st
  if r1.1 then QueryCache.evictSizeLoop (r1.2.cache.length + 1) r1.2
  else (false, r1.2)

/-- `QueryCache.get` at clock time `now`: breaker check, key generation,
TTL check with on-the-spot eviction of expired entries, access-time
refresh, statistics and pattern tracking. -/
def QueryCache.get (queryText : String) (embedding : Option (List ℚ))
    (params : List (String × String)) (now : ℤ) (st : QueryCache) :
    Option Nat × QueryCache :=
  if st.circuit_open then
    (none, { st with stats := st.stats.recordMiss })
  else
    match generateCacheKey queryText embedding params with
    | none => (none, { st with stats := st.stats.recordError })
    | some key =>
      match alookup st.cache key with
      | some entry =>
        if st.ttl_seconds < now - entry.timestamp then
          let r := st.evictItem key
          (none, { r.2 with stats := r.2.stats.recordMiss })
        else
          ( some entry.value,
            QueryCache.resetErrorCount
              { st with
                  access_times := aupdate st.access_times key now
                  stats := st.stats.recordHit 30000
                  query_patterns := bumpPattern st.query_patterns (queryPattern queryText) } )
      | none => (none, { st with stats := st.stats.recordMiss })

/-- `QueryCache.set` at clock time `now`; `sizeBytes` is the value
`_estimate_size(value)` returned. The oversize check
`size_bytes > max_memory_mb * 1024 * 1024 * 0.1` (ten percent of the
memory limit) is carried out exactly, as `limit < 10 * size_bytes` over
`ℤ`. On success the entry is stored (overwriting in place any entry under
the same key), its size is added to the memory account, and the error
counter is reset. -/
def QueryCache.set (queryText : String) (value : Nat) (sizeBytes : Nat)
    (embedding : Option (List ℚ)) (params : List (String × String)) (now : ℤ)
    (st : QueryCache) : Bool × QueryCache :=
  if st.circuit_open then (false, st)
  else
    match generateCacheKey queryText embedding params with
    | none => (false, st)
    | some key =>
      if st.memoryLimitBytes < 10 * (sizeBytes : ℤ) then
        (false, st)
      else
        let r := st.evictIfNeeded sizeBytes
        if r.1 then
          ( true,
            QueryCache.resetErrorCount
              { r.2 with
                  cache := aupdate r.2.cache key ⟨value, now, sizeBytes⟩
                  access_times := aupdate r.2.access_times key now
                  total_memory_bytes := r.2.total_memory_bytes + sizeBytes
                  query_patterns :=
                    bumpPattern r.2.query_patterns (queryPattern queryText) } )
        else (false, r.2)

/-- `QueryCache.clear`: empty every table, zero the memory account, reset
the error counter. -/
def QueryCache.clear (st : QueryCache) : Bool × QueryCache :=
  ( true,
    QueryCache.resetErrorCount
      { st with
          cache := []
          access_times := []
          query_patterns := []
          total_memory_bytes := 0 } )

/-- The eviction loop of `QueryCache.clear_pattern`: evict each key of the
snapshot in order, counting the successful evictions. -/
def QueryCache.evictKeys : List CacheKeyData → QueryCache → Nat × QueryCache
  | [], st => (0, st)
  | k :: ks, st =>
    let r1 := QueryCache.evictItem k st
    let r2 := QueryCache.evictKeys ks r1.2
    (r2.1 + (if r1.1 then 1 else 0), r2.2)

/-- `QueryCache.clear_pattern`: despite its name it snapshots every live
key (the pattern argument is never consulted), evicts them all, resets the
error counter, and returns how many evictions succeeded. -/
def QueryCache.clearPattern (pat : String) (st : QueryCache) : Nat × QueryCache :=
  let keys := st.cache.map Prod.fst
  let r := QueryCache.evictKeys keys st
  (r.1, QueryCache.resetErrorCount r.2)

/-- Sum of `size_bytes` over the live entries: what the spec says the
memory account must equal. -/
def liveSizeSum (st : QueryCache) : ℤ :=
  (st.cache.map (fun p => (p.2.size_bytes : ℤ))).sum

/-- The state of an `EmbeddingCache`, minus the asyncio lock. As with
`CacheKeyData`, the MD5 digest of the text (`get_embedding_key`) is a
cryptographic hash treated as injective, so keys are represented by the
text that is hashed. -/
structure EmbeddingCache where
  cache : List (String × List ℚ)
  max_size : Nat
  access_order : List String
deriving DecidableEq

/-- `EmbeddingCache.__init__`. -/
def EmbeddingCache.init (maxSize : Nat) : EmbeddingCache :=
  ⟨[], maxSize, []⟩

/-- `EmbeddingCache.get_embedding_key`: `None` for an empty text, else the
MD5 digest, modelled by the text itself. -/
def getEmbeddingKey (text : String) : Option String :=
  if text = "" then none else some text

/-- `EmbeddingCache.get`: on a hit, move the key to the most-recently-used
end of the access order and return (a copy of) the stored vector. When the
key is cached but missing from the access order, `access_order.remove`
raises `ValueError`, which the handler turns into a `None` with the state
untouched (the remove happens before any mutation). -/
def EmbeddingCache.get (text : String) (st : EmbeddingCache) :
    Option (List ℚ) × EmbeddingCache :=
  match getEmbeddingKey text with
  | none => (none, st)
  | some key =>
    match alookup st.cache key with
    | some v =>
      if key ∈ st.access_order then
        (some v, { st with access_order := st.access_order.erase key ++ [key] })
      else (none, st)
    | none => (none, st)

/-- The eviction loop of `EmbeddingCache.set`: while at capacity, pop the
least-recently-used key off the front of the access order and delete its
entry. A `False` outcome models the `KeyError` a dangling access-order key
would cause (`del` of a missing key), caught by the surrounding handler
after the pop has already happened. Every iteration shortens the access
order, so a fuel of one more than its length never runs out. -/
def EmbeddingCache.evictLoop : Nat → EmbeddingCache → Bool × EmbeddingCache
  | 0, st => (true, st)
  | fuel + 1, st =>
    if st.max_size ≤ st.cache.length then
      match st.access_order with
      | [] => (true, st)
      | lru :: rest =>
        match alookup st.cache lru with
        | some _ =>
          EmbeddingCache.evictLoop fuel
            { st with cache := aerase st.cache lru, access_order := rest }
        | none => (false, { st with access_order := rest })
    else (true, st)

/-- `EmbeddingCache.set`: reject empty texts and empty embeddings; when the
key is already cached, only refresh its position in the access order (the
stored vector is left as it is) and return `True` — unless the key is
missing from the access order, in which case `access_order.remove` raises
`ValueError` and the handler returns `False` with the state untouched;
otherwise evict down to capacity and append a copy of the new
embedding. -/
def EmbeddingCache.set (text : String) (embedding : List ℚ) (st : EmbeddingCache) :
    Bool × EmbeddingCache :=
  match getEmbeddingKey text with
  | none => (false, st)
  | some key =>
    if embedding = [] then (false, st)
    else if (alookup st.cache key).isSome then
      if key ∈ st.access_order then
        (true, { st with access_order := st.access_order.erase key ++ [key] })
      else (false, st)
    else
      let r := EmbeddingCache.evictLoop (st.access_order.length + 1) st
      if r.1 then
        ( true,
          { r.2 with
              cache := r.2.cache ++ [(key, embedding)]
              access_order := r.2.access_order ++ [key] } )
      else (false, r.2)

/-- An operation that fails on every invocation, the i-th with exception
identity `i` (exceptions are carried as `Nat` identities so that
"re-raised unchanged" is expressible). -/
def alwaysFailOp : Nat → Except Nat Nat := fun i => Except.error i

/-- An operation failing on its first two invocations, then succeeding. -/
def failTwiceOp : Nat → Except Nat Nat :=
  fun i => if i < 2 then Except.error i else Except.ok 42

/-- A breaker as observed while a probe is in flight: threshold 2, recovery
timeout 60, two recorded failures (the ones that opened it), last failure
at time 0, and status HALF_OPEN because a call after the timeout passed the
admission check and has not completed yet. -/
def halfOpenProbe : CircuitBreaker := ⟨2, 60, 2, some 0, .halfOpen⟩

/-- An open breaker: threshold 2, recovery timeout 10, two recorded
failures, the last at time 0. -/
def openBreaker : CircuitBreaker := ⟨2, 10, 2, some 0, .opened⟩

/-- A query cache that has seen nine consecutive internal errors (one short
of the breaker threshold). -/
def c6NineErrors : QueryCache :=
  { QueryCache.init 1000 3600 500 with consecutive_errors := 9 }

/-- A query cache whose internal breaker is open after ten consecutive
internal errors. -/
def c6OpenState : QueryCache :=
  { QueryCache.init 1000 3600 500 with consecutive_errors := 10, circuit_open := true }

/-- A query cache holding two live entries, with consistent tables. -/
def c10State : QueryCache :=
  { QueryCache.init 1000 3600 500 with
      cache := [(⟨"a", [], none⟩, ⟨1, 0, 5⟩), (⟨"b", [], none⟩, ⟨2, 0, 7⟩)]
      access_times := [(⟨"a", [], none⟩, 0), (⟨"b", [], none⟩, 1)]
      total_memory_bytes := 12 }

/-- An embedding cache holding one vector under the text key `"t"`. -/
def c9State : EmbeddingCache := ⟨[("t", [1])], 5000, ["t"]⟩

/-- A fresh default query cache after `set("q", v)` at time 1, the value
estimated at 100 bytes. -/
def c1AfterFirstSet : QueryCache :=
  (QueryCache.set "q" 7 100 none [] 1 (QueryCache.init 1000 3600 500)).2

/-- The same cache after `set("q", v)` again at time 2. -/
def c1AfterSecondSet : QueryCache :=
  (QueryCache.set "q" 7 100 none [] 2 c1AfterFirstSet).2

/-- A `max_size = 3` query cache after `set "a"`, `set "b"`, `set "c"` at
times 1, 2, 3 (each value estimated at 10 bytes). -/
def c8AfterSetC : QueryCache :=
  (QueryCache.set "c" 3 10 none [] 3
    (QueryCache.set "b" 2 10 none [] 2
      (QueryCache.set "a" 1 10 none [] 1 (QueryCache.init 3 3600 500)).2).2).2

/-- The same cache after `get "a"` at time 4. -/
def c8AfterGetA : QueryCache := (QueryCache.get "a" none [] 4 c8AfterSetC).2

/-- The same cache after `set "d"` at time 5. -/
def c8Final : QueryCache := (QueryCache.set "d" 4 10 none [] 5 c8AfterGetA).2

/-- The retry loop on a window of `r` remaining attempts that all fail:
it re-raises the exception of the last attempt and invokes the operation
exactly `r` times. -/
theorem retryGo_allFail (f : Nat → Except Nat Nat) (r : Nat) :
    1 ≤ r → ∀ (a e : Nat), (∀ i, i < r → isErr (f (a + i)) = true) →
      f (a + r - 1) = Except.error e → retryGo f a r = (.failure e, r) := by
  induction r with
  | zero => intro h; omega
  | succ s ih =>
    intro _ a e hall hlast
    have h0 : isErr (f a) = true := by simpa using hall 0 (by omega)
    cases hfa : f a with
    | ok v => rw [hfa] at h0; simp [isErr] at h0
    | error e0 =>
      by_cases hs : s = 0
      · subst hs
        have he : e0 = e := by
          have h1 : f a = Except.error e := by simpa using hlast
          rw [hfa] at h1
          exact (Except.error.injEq _ _).mp h1
        simp [retryGo, hfa, he]
      · have hall1 : ∀ i, i < s → isErr (f (a + 1 + i)) = true := by
          intro i hi
          have := hall (i + 1) (by omega)
          rwa [show a + (i + 1) = a + 1 + i by omega] at this
        have hlast1 : f (a + 1 + s - 1) = Except.error e := by
          rwa [show a + (s + 1) - 1 = a + 1 + s - 1 by omega] at hlast
        have ih1 := ih (by omega) (a + 1) e hall1 hlast1
        simp [retryGo, hfa, hs, ih1]

/-- The retry loop when the operation fails `k` times and then succeeds,
with at least `k + 1` attempts available: it returns the success value and
invokes the operation exactly `k + 1` times. -/
theorem retryGo_succeeds (f : Nat → Except Nat Nat) (k : Nat) :
    ∀ (a r v : Nat), k < r → (∀ i, i < k → isErr (f (a + i)) = true) →
      f (a + k) = Except.ok v → retryGo f a r = (.success v, k + 1) := by
  induction k with
  | zero =>
    intro a r v hkr hall hok
    obtain ⟨s, rfl⟩ : ∃ s, r = s + 1 := ⟨r - 1, by omega⟩
    have hfa : f a = Except.ok v := by simpa using hok
    simp [retryGo, hfa]
  | succ j ih =>
    intro a r v hkr hall hok
    obtain ⟨s, rfl⟩ : ∃ s, r = s + 1 := ⟨r - 1, by omega⟩
    have h0 : isErr (f a) = true := by simpa using hall 0 (by omega)
    cases hfa : f a with
    | ok w => rw [hfa] at h0; simp [isErr] at h0
    | error e0 =>
      have hs : s ≠ 0 := by omega
      have hall1 : ∀ i, i < j → isErr (f (a + 1 + i)) = true := by
        intro i hi
        have := hall (i + 1) (by omega)
        rwa [show a + (i + 1) = a + 1 + i by omega] at this
      have hok1 : f (a + 1 + j) = Except.ok v := by
        rwa [show a + (j + 1) = a + 1 + j by omega] at hok
      have ih1 := ih (a + 1) s v (by omega) hall1 hok1
      simp [retryGo, hfa, hs, ih1]

/-- Claim C2 (amended): for `retry_with_backoff(max_retries = n)` with
`n ≥ 1` applied to an operation whose failures are retriable, if every
invocation fails then the wrapper re-raises the exception of the last
attempt and the operation was invoked exactly `n` times — not `n + 1` as
the claim states — and if the operation fails `k < n` times and then
succeeds, the wrapper returns the success value and the operation was
invoked exactly `k + 1` times. -/
theorem c2_retry_invocation_counts (f : Nat → Except Nat Nat) (n : Nat) (hn : 1 ≤ n) :
    ((∀ i, i < n → isErr (f i) = true) →
      ∀ e, f (n - 1) = Except.error e → retryRun f n = (.failure e, n)) ∧
    (∀ k v, k < n → (∀ i, i < k → isErr (f i) = true) → f k = Except.ok v →
      retryRun f n = (.success v, k + 1)) := by
  constructor
  · intro hall e hlast
    have hall0 : ∀ i, i < n → isErr (f (0 + i)) = true := by
      intro i hi; simpa using hall i hi
    have hlast0 : f (0 + n - 1) = Except.error e := by simpa using hlast
    simpa [retryRun] using retryGo_allFail f n hn 0 e hall0 hlast0
  · intro k v hk hall hok
    have hall0 : ∀ i, i < k → isErr (f (0 + i)) = true := by
      intro i hi; simpa using hall i hi
    have hok0 : f (0 + k) = Except.ok v := by simpa using hok
    simpa [retryRun] using retryGo_succeeds f k 0 n v hk hall0 hok0

/-- Claim C2 counterexample: with `max_retries = 3` and an operation that
fails on every invocation, the loop `for attempt in range(max_retries)`
invokes the operation exactly 3 times, re-raising the exception of
invocation index 2 — the claim's `max_retries + 1 = 4` invocations never
happen. -/
theorem c2_retry_count_counterexample :
    retryRun alwaysFailOp 3 = (.failure 2, 3) ∧ (3 : Nat) ≠ 3 + 1 := by decide

/-- Witness for the amended C2 at concrete inputs. -/
theorem c2_retry_invocation_counts_witness :
    retryRun failTwiceOp 4 = (.success 42, 3) ∧
    retryRun alwaysFailOp 2 = (.failure 1, 2) :=
  ⟨(c2_retry_invocation_counts failTwiceOp 4 (by decide)).2 2 42 (by decide)
      (by decide) rfl,
   (c2_retry_invocation_counts alwaysFailOp 2 (by decide)).1 (by decide) 1 rfl⟩

/-- While the failure count stays below the threshold, failing calls pass
through a CLOSED breaker, incrementing the count and leaving it CLOSED
with its configuration untouched. -/
theorem applyFails_closed (ts : List ℚ) :
    ∀ cb : CircuitBreaker, cb.status = .closed →
      cb.failure_count + ts.length < cb.failure_threshold →
      (cb.applyFails ts).status = .closed ∧
      (cb.applyFails ts).failure_count = cb.failure_count + ts.length ∧
      (cb.applyFails ts).failure_threshold = cb.failure_threshold := by
  induction ts with
  | nil =>
    intro cb h1 h2
    simp [CircuitBreaker.applyFails, h1]
  | cons t ts ih =>
    intro cb h1 h2
    have hlt : ¬ cb.failure_threshold ≤ cb.failure_count + 1 := by
      simp only [List.length_cons] at h2; omega
    have hstep :
        (CircuitBreaker.call (α := Unit) (Except.error ()) t cb).state =
          { cb with
              failure_count := cb.failure_count + 1
              last_failure_time := some t } := by
      simp [CircuitBreaker.call, CircuitBreaker.check, h1, CircuitBreaker.onFailure, hlt]
    have hfold :
        cb.applyFails (t :: ts) =
          CircuitBreaker.applyFails ts
            { cb with
                failure_count := cb.failure_count + 1
                last_failure_time := some t } := by
      simp [CircuitBreaker.applyFails] at hstep ⊢
      rw [hstep]
    rw [hfold]
    have h2s : ({ cb with
        failure_count := cb.failure_count + 1
        last_failure_time := some t } : CircuitBreaker).failure_count + ts.length <
        ({ cb with
            failure_count := cb.failure_count + 1
            last_failure_time := some t } : CircuitBreaker).failure_threshold := by
      simp only [List.length_cons] at h2; simpa using by omega
    obtain ⟨hA, hB, hC⟩ := ih _ (by simpa using h1) h2s
    refine ⟨hA, ?_, by simpa using hC⟩
    rw [hB]; simp; omega

/-- Claim C3: circuit-breaker transition correctness. (i) Starting CLOSED
with `failure_threshold = N`, the Nth consecutive failing call sets the
status to OPEN and stamps `last_failure_time` with its time. (ii) A call
attempted while OPEN at most `recovery_timeout` after the last failure is
rejected with a transient error carrying the remaining wait time, without
invoking the wrapped function and without changing the breaker state.
(iii) A call attempted strictly after the timeout passes the admission
check with the status moved to HALF_OPEN, proceeds to the wrapped
function, and on success leaves the breaker CLOSED with `failure_count`
reset to 0. -/
theorem c3_circuit_breaker_transitions (N : Nat) (rt : ℚ) :
    (∀ (ts : List ℚ) (tN : ℚ), ts.length + 1 = N →
      ((CircuitBreaker.init N rt).applyFails (ts ++ [tN])).status = .opened ∧
      ((CircuitBreaker.init N rt).applyFails (ts ++ [tN])).last_failure_time = some tN) ∧
    (∀ (cb : CircuitBreaker) (t now : ℚ) (outcome : Except Unit Nat),
      cb.status = .opened → cb.last_failure_time = some t →
      now - t ≤ cb.recovery_timeout →
      CircuitBreaker.call outcome now cb =
        ⟨false, .rejected (cb.timeUntilReset now), cb⟩) ∧
    (∀ (cb : CircuitBreaker) (t now : ℚ),
      cb.status = .opened → cb.last_failure_time = some t →
      cb.recovery_timeout < now - t →
      cb.check now = .proceed { cb with status := .halfOpen } ∧
      ∀ a : Nat, CircuitBreaker.call (Except.ok a) now cb =
        ⟨true, .ok a, { cb with failure_count := 0, status := .closed }⟩) := by
  refine ⟨?_, ?_, ?_⟩
  · intro ts tN hlen
    have hmid := applyFails_closed ts (CircuitBreaker.init N rt) rfl
      (by simp [CircuitBreaker.init]; omega)
    obtain ⟨hA, hB, hC⟩ := hmid
    have happ :
        (CircuitBreaker.init N rt).applyFails (ts ++ [tN]) =
          (CircuitBreaker.call (α := Unit) (Except.error ()) tN
            ((CircuitBreaker.init N rt).applyFails ts)).state := by
      simp [CircuitBreaker.applyFails, List.foldl_append]
    have hthr :
        ((CircuitBreaker.init N rt).applyFails ts).failure_threshold ≤
          ((CircuitBreaker.init N rt).applyFails ts).failure_count + 1 := by
      rw [hB, hC]
      simp [CircuitBreaker.init]
      omega
    rw [happ]
    constructor
    · simp [CircuitBreaker.call, CircuitBreaker.check, hA, CircuitBreaker.onFailure, hthr]
    · simp [CircuitBreaker.call, CircuitBreaker.check, hA, CircuitBreaker.onFailure, hthr]
  · intro cb t now outcome hopen hlast htime
    have hres : cb.shouldAttemptReset now = false := by
      simp [CircuitBreaker.shouldAttemptReset, hlast]
      linarith
    simp [CircuitBreaker.call, CircuitBreaker.check, hopen, hres]
  · intro cb t now hopen hlast htime
    have hres : cb.shouldAttemptReset now = true := by
      simp [CircuitBreaker.shouldAttemptReset, hlast]
      linarith
    constructor
    · simp [CircuitBreaker.check, hopen, hres]
    · intro a
      simp [CircuitBreaker.call, CircuitBreaker.check, hopen, hres, CircuitBreaker.onSuccess]

/-- Witness for C3 at concrete inputs: threshold 2, recovery timeout 10. -/
theorem c3_circuit_breaker_transitions_witness :
    (((CircuitBreaker.init 2 10).applyFails ([3] ++ [4])).status = .opened ∧
      ((CircuitBreaker.init 2 10).applyFails ([3] ++ [4])).last_failure_time = some 4) ∧
    CircuitBreaker.call (Except.error () : Except Unit Nat) 5 openBreaker =
      ⟨false, .rejected (openBreaker.timeUntilReset 5), openBreaker⟩ ∧
    openBreaker.check 11 = .proceed { openBreaker with status := .halfOpen } ∧
    CircuitBreaker.call (Except.ok 7 : Except Unit Nat) 11 openBreaker =
      ⟨true, .ok 7, { openBreaker with failure_count := 0, status := .closed }⟩ := by
  refine ⟨(c3_circuit_breaker_transitions 2 10).1 [3] 4 rfl, ?_, ?_, ?_⟩
  · exact (c3_circuit_breaker_transitions 2 10).2.1 openBreaker 0 5 _ rfl rfl
      (by norm_num [openBreaker])
  · exact ((c3_circuit_breaker_transitions 2 10).2.2 openBreaker 0 11 rfl rfl
      (by norm_num [openBreaker])).1
  · exact ((c3_circuit_breaker_transitions 2 10).2.2 openBreaker 0 11 rfl rfl
      (by norm_num [openBreaker])).2 7

/-- Claim C4 (amended): while the breaker is HALF_OPEN its admission check
lets every call proceed, leaving the state unchanged — the breaker itself
never limits the number of in-flight probes; "exactly one probe" holds
only when each call completes before the next one starts. -/
theorem c4_half_open_admits_every_call (cb : CircuitBreaker) (now : ℚ)
    (h : cb.status = .halfOpen) : cb.check now = .proceed cb := by
  simp [CircuitBreaker.check, h]

/-- Claim C4 counterexample: with the breaker HALF_OPEN and a first probe
in flight (its admission check at time 30 passed and left the state
unchanged, still HALF_OPEN), a second call's admission check at time 31
also passes, so a second call reaches the wrapped function before the
first probe's outcome has moved the breaker to CLOSED or OPEN. -/
theorem c4_second_probe_counterexample :
    halfOpenProbe.status = .halfOpen ∧
    halfOpenProbe.check 30 = .proceed halfOpenProbe ∧
    halfOpenProbe.check 31 = .proceed halfOpenProbe := by
  refine ⟨rfl, ?_, ?_⟩ <;> simp [CircuitBreaker.check, halfOpenProbe]

/-- Witness for the amended C4 at a concrete half-open breaker. -/
theorem c4_half_open_admits_every_call_witness :
    halfOpenProbe.check 45 = .proceed halfOpenProbe :=
  c4_half_open_admits_every_call halfOpenProbe 45 rfl

/-- Claim C5 (amended): with jitter enabled and no rate-limit hint, the
waited delay equals `d * (0.5 + r)` where
`d = min(initial_delay * exponential_base ^ attempt, max_delay)` and `r`
is the value `random.random()` returned; since `r ∈ [0, 1)` the random
factor lies in `[0.5, 1.5)` — not `[0.5, 1.0]` as the claim states — and
the waited delay is only bounded by `1.5 * max_delay`, not by
`max_delay`. -/
theorem c5_jitter_bounds (initialDelay maxDelay exponentialBase r : ℚ) (attempt : Nat)
    (hi : 0 ≤ initialDelay) (hm : 0 ≤ maxDelay) (hb : 0 ≤ exponentialBase)
    (hr0 : 0 ≤ r) (hr1 : r < 1) :
    backoffDelay initialDelay maxDelay exponentialBase true none attempt r =
      min (initialDelay * exponentialBase ^ attempt) maxDelay * (1/2 + r) ∧
    1/2 ≤ 1/2 + r ∧ (1/2 + r : ℚ) < 3/2 ∧
    backoffDelay initialDelay maxDelay exponentialBase true none attempt r ≤
      3/2 * maxDelay := by
  have hd0 : 0 ≤ min (initialDelay * exponentialBase ^ attempt) maxDelay :=
    le_min (mul_nonneg hi (pow_nonneg hb _)) hm
  have hdm : min (initialDelay * exponentialBase ^ attempt) maxDelay ≤ maxDelay :=
    min_le_right _ _
  refine ⟨rfl, by linarith, by linarith, ?_⟩
  calc backoffDelay initialDelay maxDelay exponentialBase true none attempt r
      = min (initialDelay * exponentialBase ^ attempt) maxDelay * (1/2 + r) := rfl
    _ ≤ min (initialDelay * exponentialBase ^ attempt) maxDelay * (3/2) :=
        mul_le_mul_of_nonneg_left (by linarith) hd0
    _ ≤ maxDelay * (3/2) := mul_le_mul_of_nonneg_right hdm (by norm_num)
    _ = 3/2 * maxDelay := by ring

/-- Claim C5 counterexample: at `initial_delay = 1`, `max_delay = 1`,
`exponential_base = 2`, attempt 0 and random value `r = 9/10` (a valid
return of `random.random()`), the computed delay is `7/5`, which exceeds
`max_delay`, and the random factor `0.5 + 9/10 = 1.4` lies outside the
claimed interval `[0.5, 1.0]`. -/
theorem c5_jitter_counterexample :
    (0:ℚ) ≤ 9/10 ∧ (9/10:ℚ) < 1 ∧
    backoffDelay 1 1 2 true none 0 (9/10) = 7/5 ∧
    ¬ backoffDelay 1 1 2 true none 0 (9/10) ≤ 1 ∧
    ¬ (1/2 + 9/10 : ℚ) ≤ 1 := by
  refine ⟨by norm_num, by norm_num, ?_, ?_, by norm_num⟩ <;>
    norm_num [backoffDelay]

/-- Witness for the amended C5 at concrete inputs. -/
theorem c5_jitter_bounds_witness :
    backoffDelay 1 1 2 true none 0 (1/4) = min (1 * 2 ^ 0) 1 * (1/2 + 1/4) ∧
    (1/2 : ℚ) ≤ 1/2 + 1/4 ∧ (1/2 + 1/4 : ℚ) < 3/2 ∧
    backoffDelay 1 1 2 true none 0 (1/4) ≤ 3/2 * 1 :=
  c5_jitter_bounds 1 1 2 (1/4) 0 (by norm_num) (by norm_num) (by norm_num)
    (by norm_num) (by norm_num)

/-- Claim C1 (code-bug evidence): overwriting a live entry double-counts
its size. After `set("q", v)` at time 1 and again at time 2 on a fresh
default cache (sizes 100 bytes each), the second `set` returns `True` and
the cache holds exactly one live entry whose `size_bytes` sum is 100, yet
`_total_memory_bytes` is 200: `set` adds the new entry's size without
subtracting the size of the entry it overwrites, so the memory account no
longer equals the sum of `size_bytes` over the live entries. -/
theorem c1_set_set_double_counts_memory :
    (QueryCache.set "q" 7 100 none [] 2 c1AfterFirstSet).1 = true ∧
    c1AfterSecondSet.cache = [(⟨"q", [], none⟩, ⟨7, 2, 100⟩)] ∧
    liveSizeSum c1AfterSecondSet = 100 ∧
    c1AfterSecondSet.total_memory_bytes = 200 ∧
    c1AfterSecondSet.total_memory_bytes ≠ liveSizeSum c1AfterSecondSet := by
  decide

/-- Claim C8: LRU eviction picks the least-recently-accessed victim. With
`max_size = 3`, after `set "a"`, `set "b"`, `set "c"` at times 1, 2, 3,
then `get "a"` at time 4 (a hit, refreshing the access time of `a`), then
`set "d"` at time 5, the cache holds exactly the entries for `a`, `c` and
`d`, and the entry for `b` has been evicted. -/
theorem c8_lru_eviction_scenario :
    (QueryCache.get "a" none [] 4 c8AfterSetC).1 = some 1 ∧
    c8Final.cache.map Prod.fst =
      [⟨"a", [], none⟩, ⟨"c", [], none⟩, ⟨"d", [], none⟩] ∧
    alookup c8Final.cache ⟨"b", [], none⟩ = none ∧
    (QueryCache.set "d" 4 10 none [] 5 c8AfterGetA).1 = true := by
  decide

/-- Claim C6: the query cache's internal breaker fails open. (i) Every
internal error increments the consecutive-error counter; (ii) with the
threshold at its configured value 10, the error that brings the counter to
10 opens the breaker; (iii) while the breaker is open, `get` records a
miss and returns absent and `set` returns `False`, neither touching the
entry table, the access table, or the memory account; (iv) a later
successful operation (here `clear`, one of the operations that can still
succeed while the breaker is open) leaves the counter at zero and, when
errors had been recorded, closes the breaker. -/
theorem c6_internal_breaker_fail_open (st : QueryCache) (q : String) (v sz : Nat)
    (e : Option (List ℚ)) (p : List (String × String)) (now : ℤ) :
    st.handleError.consecutive_errors = st.consecutive_errors + 1 ∧
    (st.max_consecutive_errors = 10 → st.consecutive_errors + 1 = 10 →
      st.handleError.circuit_open = true) ∧
    (st.circuit_open = true →
      QueryCache.get q e p now st = (none, { st with stats := st.stats.recordMiss }) ∧
      QueryCache.set q v sz e p now st = (false, st)) ∧
    (st.clear).2.consecutive_errors = 0 ∧
    (0 < st.consecutive_errors → (st.clear).2.circuit_open = false) := by
  refine ⟨rfl, ?_, ?_, ?_, ?_⟩
  · intro h10 hc
    simp [QueryCache.handleError, hc, h10]
  · intro ho
    exact ⟨by simp [QueryCache.get, ho], by simp [QueryCache.set, ho]⟩
  · simp only [QueryCache.clear, QueryCache.resetErrorCount]
    split
    · rfl
    · simp only [not_lt, Nat.le_zero] at *
      omega
  · intro hc
    simp [QueryCache.clear, QueryCache.resetErrorCount, hc]

/-- Witness for C6: a cache with nine recorded errors for the opening
step, and a cache with the breaker open for the fail-open and reset
steps. -/
theorem c6_internal_breaker_fail_open_witness :
    c6NineErrors.handleError.consecutive_errors = 10 ∧
    c6NineErrors.handleError.circuit_open = true ∧
    QueryCache.get "q" none [] 1 c6OpenState =
      (none, { c6OpenState with stats := c6OpenState.stats.recordMiss }) ∧
    QueryCache.set "q" 7 100 none [] 1 c6OpenState = (false, c6OpenState) ∧
    (c6OpenState.clear).2.consecutive_errors = 0 ∧
    (c6OpenState.clear).2.circuit_open = false := by
  have h1 := c6_internal_breaker_fail_open c6NineErrors "q" 7 100 none [] 1
  have h2 := c6_internal_breaker_fail_open c6OpenState "q" 7 100 none [] 1
  refine ⟨?_, ?_, ?_, ?_, ?_, ?_⟩
  · rw [h1.1]; rfl
  · exact h1.2.1 rfl rfl
  · exact (h2.2.2.1 rfl).1
  · exact (h2.2.2.1 rfl).2
  · exact h2.2.2.2.1
  · exact h2.2.2.2.2 (by decide)

/-- `_generate_cache_key` in closed form: for a non-empty query it keys on
the normalised query, the parameter mapping, and the truncated
embedding. -/
theorem generateCacheKey_eq (q : String) (e : Option (List ℚ))
    (p : List (String × String)) :
    generateCacheKey q e p =
      if q = "" then none else some ⟨normalizeQuery q, p, truncEmbedding e⟩ := by
  cases e with
  | none => rfl
  | some l =>
    by_cases hl : l = []
    · simp [generateCacheKey, truncEmbedding, hl]
    · simp [generateCacheKey, truncEmbedding, hl]

/-- Claim C7 (amended): two requests produce the same cache key exactly
when they agree on the normalised (lower-cased, trimmed) query text, on
the parameter mapping, and on the truncation of the embedding to its first
ten components (an empty or absent embedding contributing nothing) — up to
cryptographic-hash collision, hashes being modelled as injective. In
particular equal requests always collide, but requests differing only
beyond the tenth embedding component also collide, against the claim's
distinctness half. -/
theorem c7_cache_key_characterization (q1 q2 : String) (e1 e2 : Option (List ℚ))
    (p1 p2 : List (String × String)) (h1 : q1 ≠ "") (h2 : q2 ≠ "") :
    generateCacheKey q1 e1 p1 = generateCacheKey q2 e2 p2 ↔
      (normalizeQuery q1 = normalizeQuery q2 ∧ p1 = p2 ∧
        truncEmbedding e1 = truncEmbedding e2) := by
  rw [generateCacheKey_eq, generateCacheKey_eq, if_neg h1, if_neg h2]
  simp [CacheKeyData.mk.injEq]

/-- Claim C7 counterexample: two embeddings that agree on their first ten
components but differ at the eleventh are different embeddings, yet they
produce the same cache key even with injective (collision-free) hashes,
because only `embedding[:10]` enters the digest. -/
theorem c7_truncation_counterexample :
    List.replicate 11 (0:ℚ) ≠ List.replicate 10 (0:ℚ) ++ [1] ∧
    generateCacheKey "q" (some (List.replicate 11 (0:ℚ))) [] =
      generateCacheKey "q" (some (List.replicate 10 (0:ℚ) ++ [1])) [] := by
  decide

/-- Witness for the amended C7: queries differing only in case and
trailing whitespace, with equal embeddings and parameters, produce the
same key. -/
theorem c7_cache_key_characterization_witness :
    generateCacheKey "A " (some [1, 2]) [("k", "v")] =
      generateCacheKey "a" (some [1, 2]) [("k", "v")] :=
  (c7_cache_key_characterization "A " "a" (some [1, 2]) (some [1, 2])
      [("k", "v")] [("k", "v")] (by decide) (by decide)).mpr
    ⟨by decide, rfl, rfl⟩

/-- Claim C9: `EmbeddingCache.set` on a text whose embedding is already
cached returns `True` but does not replace the stored vector: the entry
table is unchanged, a subsequent `get` still returns the originally stored
vector `v1` (not the new `v2` when they differ), and only the key's
position in the access order is refreshed. -/
theorem c9_embedding_set_preserves_stored_vector (st : EmbeddingCache) (text : String)
    (v1 v2 : List ℚ) (ht : text ≠ "") (hv2 : v2 ≠ [])
    (hmem : alookup st.cache text = some v1) (hacc : text ∈ st.access_order) :
    EmbeddingCache.set text v2 st =
      (true, { st with access_order := st.access_order.erase text ++ [text] }) ∧
    (EmbeddingCache.get text (EmbeddingCache.set text v2 st).2).1 = some v1 ∧
    (EmbeddingCache.set text v2 st).2.cache = st.cache ∧
    (v1 ≠ v2 → (EmbeddingCache.get text (EmbeddingCache.set text v2 st).2).1 ≠ some v2) := by
  have hkey : getEmbeddingKey text = some text := by simp [getEmbeddingKey, ht]
  have hset : EmbeddingCache.set text v2 st =
      (true, { st with access_order := st.access_order.erase text ++ [text] }) := by
    simp [EmbeddingCache.set, hkey, hv2, hmem, hacc]
  refine ⟨hset, ?_, by rw [hset], ?_⟩
  · rw [hset]
    simp [EmbeddingCache.get, hkey, hmem]
  · intro hne
    rw [hset]
    simpa [EmbeddingCache.get, hkey, hmem] using hne


/-- The keys of `aerase l k` form a sublist of the keys of `l`. -/
theorem map_fst_aerase_sublist {K V : Type} [DecidableEq K] (l : List (K × V)) (k : K) :
    ((aerase l k).map Prod.fst).Sublist (l.map Prod.fst) := by
  induction l with
  | nil => simp [aerase]
  | cons kv rest ih =>
    obtain ⟨k1, v1⟩ := kv
    by_cases h : k1 = k
    · subst h
      simp only [aerase, if_pos rfl, List.map_cons]
      exact (List.sublist_cons_self k1 (rest.map Prod.fst))
    · simp only [aerase, if_neg h, List.map_cons]
      exact ih.cons₂ k1

/-- Erasing a key from a map with no duplicate keys removes it
entirely. -/
theorem not_mem_map_fst_aerase {K V : Type} [DecidableEq K] (l : List (K × V)) (k : K)
    (h : (l.map Prod.fst).Nodup) : k ∉ (aerase l k).map Prod.fst := by
  induction l with
  | nil => simp [aerase]
  | cons kv rest ih =>
    obtain ⟨k1, v1⟩ := kv
    simp only [List.map_cons, List.nodup_cons] at h
    by_cases hk : k1 = k
    · subst hk
      simp only [aerase, if_pos rfl]
      exact h.1
    · simp only [aerase, if_neg hk, List.map_cons, List.mem_cons]
      intro hmem
      rcases hmem with h1 | h2
      · exact hk h1.symm
      · exact ih h.2 h2

/-- `resetErrorCount` only touches the error counters. -/
theorem resetErrorCount_cache (st : QueryCache) :
    st.resetErrorCount.cache = st.cache := by
  unfold QueryCache.resetErrorCount
  split <;> rfl

/-- `resetErrorCount` only touches the error counters. -/
theorem resetErrorCount_access (st : QueryCache) :
    st.resetErrorCount.access_times = st.access_times := by
  unfold QueryCache.resetErrorCount
  split <;> rfl

/-- Evicting, in order, exactly the keys of the entry table of a cache
whose tables are consistent (no duplicate keys, every access-time key
backed by an entry) succeeds for every key and empties both tables. -/
theorem evictKeys_clears (ks : List CacheKeyData) :
    ∀ st : QueryCache, st.cache.map Prod.fst = ks →
      (st.cache.map Prod.fst).Nodup →
      (st.access_times.map Prod.fst).Nodup →
      (∀ k, k ∈ st.access_times.map Prod.fst → k ∈ st.cache.map Prod.fst) →
      (QueryCache.evictKeys ks st).1 = ks.length ∧
      (QueryCache.evictKeys ks st).2.cache = [] ∧
      (QueryCache.evictKeys ks st).2.access_times = [] := by
  induction ks with
  | nil =>
    intro st hks hnc hna hsub
    have hc : st.cache = [] := by
      cases hC : st.cache with
      | nil => rfl
      | cons a t => rw [hC] at hks; simp at hks
    have ha : st.access_times = [] := by
      cases hA : st.access_times with
      | nil => rfl
      | cons a t =>
        exfalso
        have hin : a.1 ∈ st.access_times.map Prod.fst := by rw [hA]; simp
        have := hsub a.1 hin
        rw [hks] at this
        simp at this
    simp [QueryCache.evictKeys, hc, ha]
  | cons k ks ih =>
    intro st hks hnc hna hsub
    cases hC : st.cache with
    | nil => rw [hC] at hks; simp at hks
    | cons hd rest =>
      obtain ⟨k1, entry⟩ := hd
      rw [hC] at hks
      simp only [List.map_cons, List.cons.injEq] at hks
      obtain ⟨hk1, hrest⟩ := hks
      subst hk1
      have hlook : alookup st.cache k1 = some entry := by
        rw [hC]; simp [alookup]
      have hev : QueryCache.evictItem k1 st =
          (true,
            { st with
                total_memory_bytes := st.total_memory_bytes - entry.size_bytes
                cache := aerase st.cache k1
                access_times := aerase st.access_times k1 }) := by
        simp [QueryCache.evictItem, hlook]
      have hacache : aerase st.cache k1 = rest := by
        rw [hC]; simp [aerase]
      have hnc' : (rest.map Prod.fst).Nodup := by
        rw [hC] at hnc
        simp only [List.map_cons, List.nodup_cons] at hnc
        exact hnc.2
      have hknotin : k1 ∉ rest.map Prod.fst := by
        rw [hC] at hnc
        simp only [List.map_cons, List.nodup_cons] at hnc
        exact hnc.1
      have hna' : ((aerase st.access_times k1).map Prod.fst).Nodup :=
        (map_fst_aerase_sublist st.access_times k1).nodup hna
      have hsub' : ∀ k, k ∈ (aerase st.access_times k1).map Prod.fst →
          k ∈ rest.map Prod.fst := by
        intro k2 hk2
        have hmem : k2 ∈ st.access_times.map Prod.fst :=
          (map_fst_aerase_sublist st.access_times k1).mem hk2
        have hincache := hsub k2 hmem
        rw [hC] at hincache
        simp only [List.map_cons, List.mem_cons] at hincache
        rcases hincache with h1 | h2
        · exfalso
          exact not_mem_map_fst_aerase st.access_times k1 hna (h1 ▸ hk2)
        · exact h2
      have ihres := ih
        { st with
            total_memory_bytes := st.total_memory_bytes - entry.size_bytes
            cache := aerase st.cache k1
            access_times := aerase st.access_times k1 }
        (by simpa [hacache] using hrest)
        (by simpa [hacache] using hnc')
        (by simpa using hna')
        (by simpa [hacache] using hsub')
      obtain ⟨h1, h2, h3⟩ := ihres
      refine ⟨?_, ?_, ?_⟩
      · simp only [QueryCache.evictKeys, hev, h1, List.length_cons]
        simp
      · simp only [QueryCache.evictKeys, hev]
        exact h2
      · simp only [QueryCache.evictKeys, hev]
        exact h3

/-- Claim C10: for every pattern string, `clear_pattern` evicts every live
entry regardless of whether it matches the pattern: on a cache whose
tables are consistent (no duplicate keys, every access-time key backed by
an entry, as every reachable cache state satisfies), it returns the number
of entries that were live when it was called, and afterwards the entry
table and the access index are both empty. -/
theorem c10_clear_pattern_clears_all (pat : String) (st : QueryCache)
    (hnc : (st.cache.map Prod.fst).Nodup)
    (hna : (st.access_times.map Prod.fst).Nodup)
    (hsub : ∀ k, k ∈ st.access_times.map Prod.fst → k ∈ st.cache.map Prod.fst) :
    (st.clearPattern pat).1 = st.cache.length ∧
    (st.clearPattern pat).2.cache = [] ∧
    (st.clearPattern pat).2.access_times = [] := by
  obtain ⟨h1, h2, h3⟩ :=
    evictKeys_clears (st.cache.map Prod.fst) st rfl hnc hna hsub
  unfold QueryCache.clearPattern
  refine ⟨?_, ?_, ?_⟩
  · simpa [List.length_map] using h1
  · rw [resetErrorCount_cache]
    exact h2
  · rw [resetErrorCount_access]
    exact h3

/-- Witness for C10 on a concrete two-entry cache. -/
theorem c10_clear_pattern_clears_all_witness :
    (c10State.clearPattern "strategy").1 = c10State.cache.length ∧
    (c10State.clearPattern "strategy").2.cache = [] ∧
    (c10State.clearPattern "strategy").2.access_times = [] :=
  c10_clear_pattern_clears_all "strategy" c10State (by decide) (by decide) (by decide)

/-- Witness for C9 on a concrete one-entry embedding cache. -/
theorem c9_embedding_set_preserves_stored_vector_witness :
    EmbeddingCache.set "t" [2, 3] c9State =
      (true, { c9State with access_order := c9State.access_order.erase "t" ++ ["t"] }) ∧
    (EmbeddingCache.get "t" (EmbeddingCache.set "t" [2, 3] c9State).2).1 = some [1] ∧
    (EmbeddingCache.set "t" [2, 3] c9State).2.cache = c9State.cache ∧
    (([1] : List ℚ) ≠ [2, 3] →
      (EmbeddingCache.get "t" (EmbeddingCache.set "t" [2, 3] c9State).2).1 ≠ some [2, 3]) :=
  c9_embedding_set_preserves_stored_vector c9State "t" [1] [2, 3] (by decide) (by decide)
    (by decide) (by decide)
